import Mathlib

/-!
Verification of the schedule/state coordination core of android-sync
(src/android_sync/scheduler.py and the scheduling commands of
src/android_sync/cli.py), shallowly embedded in Lean.

Modelling conventions:
* Instants (Python `datetime`) are integers counting seconds; the comparisons
  the code performs on `datetime` values (`>=`, subtraction, `total_seconds`)
  map directly to integer arithmetic, and the two floating-point divisions in
  the source are carried out in `ℚ`.
* Python's `datetime.isoformat` / `datetime.fromisoformat` pair is a lossless
  encoding of an instant, so a serialized timestamp is modelled by the
  constructor `JsonTimeVal.time` carrying the instant itself, with
  `JsonTimeVal.bad` standing for a present-but-unparsable string (which makes
  `fromisoformat` raise `ValueError`) and `JsonTimeVal.missing` for an absent,
  null or otherwise falsy value (`data.get(key)` falsy in the source).
* The status field is a plain `String`: the source annotates it with
  `Literal["pending", "running", "success", "failed"]` but neither
  `json.load` nor the dataclass constructor enforces that annotation at
  runtime, and the embedding keeps that behaviour.
* The state directory (one JSON file per schedule, keyed by schedule name) is
  a function `Store : String → Option FileContent`; `none` is a missing file
  and `FileContent.junk` a file `json.load` cannot parse.
* `croniter` applied to one fixed, pre-validated cron expression is a function
  `NextFn : Int → Int` from an instant to the next trigger; a schedule's
  optional cron expression is `Option NextFn`.  (A concrete operational model
  of cron matching, used for the recurrence-monotonicity claim, appears
  further below.)
-/

/-- ScheduleState dataclass of scheduler.py: one persisted record per
schedule, with nullable timestamps and a process id. -/
structure ScheduleState where
  schedule : String
  last_run : Option Int
  next_run : Option Int
  status : String
  started_at : Option Int
  finished_at : Option Int
  pid : Option Int
deriving DecidableEq

/-- Value found in one timestamp slot of a parsed state-file JSON object:
absent/null/falsy, a valid ISO-8601 string denoting instant `t`, or a
present but unparsable string (ValueError in `datetime.fromisoformat`). -/
inductive JsonTimeVal where
  | missing : JsonTimeVal
  | time (t : Int) : JsonTimeVal
  | bad : JsonTimeVal
deriving DecidableEq

/-- A parsed state-file JSON object.  `schedule`/`status` are `none` when the
key is absent (KeyError on `data[...]` in the source). -/
structure RawRecord where
  schedule : Option String
  last_run : JsonTimeVal
  next_run : JsonTimeVal
  status : Option String
  started_at : JsonTimeVal
  finished_at : JsonTimeVal
  pid : Option Int
deriving DecidableEq

/-- Content of one state file: either text `json.load` rejects, or a JSON
object. -/
inductive FileContent where
  | junk : FileContent
  | record (r : RawRecord) : FileContent
deriving DecidableEq

/-- The state directory, one entry per schedule name (`<name>.json`). -/
abbrev Store := String → Option FileContent

/-- A pre-validated cron expression, represented by the function computing
the next trigger instant from a given instant (croniter's `get_next` for
that fixed expression). -/
abbrev NextFn := Int → Int

/-- calculate_next_run of scheduler.py: delegates to croniter's `get_next`,
here the `NextFn` itself. -/
def calculate_next_run (f : NextFn) (from_time : Int) : Int := f from_time

/-- Serialization of one nullable timestamp in save_state: `isoformat` when
non-null, JSON null otherwise. -/
def encodeTime : Option Int → JsonTimeVal
  | none => .missing
  | some t => .time t

/-- Deserialization of one nullable timestamp in load_state:
`datetime.fromisoformat(data[key]) if data.get(key) else None`; `none` is the
ValueError path. -/
def parseTime : JsonTimeVal → Option (Option Int)
  | .missing => some none
  | .time t => some (some t)
  | .bad => none

/-- Serialization performed by save_state: every field written, timestamps
via isoformat, nulls preserved. -/
def encodeRecord (s : ScheduleState) : RawRecord where
  schedule := some s.schedule
  last_run := encodeTime s.last_run
  next_run := encodeTime s.next_run
  status := some s.status
  started_at := encodeTime s.started_at
  finished_at := encodeTime s.finished_at
  pid := s.pid

/-- The record-reconstruction step of load_state: required keys `schedule`
and `status` (KeyError when absent), timestamps parsed with fromisoformat
(ValueError on malformed input), `pid` via `data.get`.  `none` models the
caught exceptions.  Note the status string is accepted verbatim: no enum
validation happens. -/
def parseRecord (r : RawRecord) : Option ScheduleState :=
  match r.schedule, r.status with
  | some sched, some st =>
    match parseTime r.last_run, parseTime r.next_run,
          parseTime r.started_at, parseTime r.finished_at with
    | some lr, some nr, some sa, some fa =>
      some { schedule := sched, last_run := lr, next_run := nr, status := st,
             started_at := sa, finished_at := fa, pid := r.pid }
    | _, _, _, _ => none
  | _, _ => none

/-- save_state of scheduler.py: overwrite the state file keyed by
`state.schedule` with the full serialized record. -/
def save_state (store : Store) (s : ScheduleState) : Store :=
  fun n => if n = s.schedule then some (.record (encodeRecord s)) else store n

/-- The fresh pending record created by load_state for a new or corrupted
state file: `next_run` computed from now when a cron expression exists. -/
def freshState (name : String) (cron : Option NextFn) (now : Int) : ScheduleState where
  schedule := name
  last_run := none
  next_run := cron.map (fun f => calculate_next_run f now)
  status := "pending"
  started_at := none
  finished_at := none
  pid := none

/-- Result of load_state: the returned state, the state directory after the
call (load_state persists the fresh record it creates), and whether the
corruption warning was logged. -/
structure LoadResult where
  state : ScheduleState
  store : Store
  warned : Bool

/-- load_state of scheduler.py: missing file → create and persist fresh
pending state; unreadable or malformed file → log a warning, create and
persist fresh pending state; otherwise return the parsed record untouched. -/
def load_state (store : Store) (now : Int) (name : String)
    (cron : Option NextFn) : LoadResult :=
  match store name with
  | none =>
    let s := freshState name cron now
    ⟨s, save_state store s, false⟩
  | some .junk =>
    let s := freshState name cron now
    ⟨s, save_state store s, true⟩
  | some (.record r) =>
    match parseRecord r with
    | some s => ⟨s, store, false⟩
    | none =>
      let s := freshState name cron now
      ⟨s, save_state store s, true⟩

/-- Round trip of a single timestamp slot. -/
theorem parseTime_encodeTime (o : Option Int) : parseTime (encodeTime o) = some o := by
  cases o <;> rfl

/-- Serialization written by save_state always parses back to the same
state, for any status string. -/
theorem parseRecord_encodeRecord (s : ScheduleState) :
    parseRecord (encodeRecord s) = some s := by
  cases s with
  | mk sched lr nr st sa fa pid =>
    cases lr <;> cases nr <;> cases sa <;> cases fa <;> rfl

/-- Reading the store at the key just saved. -/
theorem save_state_self (store : Store) (s : ScheduleState) :
    save_state store s s.schedule = some (.record (encodeRecord s)) := by
  simp [save_state]

/-- Saving one schedule's record leaves every other key untouched. -/
theorem save_state_other (store : Store) (s : ScheduleState) (n : String)
    (h : n ≠ s.schedule) : save_state store s n = store n := by
  simp [save_state, h]

/-- C7: for every ScheduleState (any combination of null and non-null
fields, any status string), saving it and then loading it for the same
schedule name reproduces every field exactly (timestamps are carried
losslessly by the ISO encoding), performs no further store mutation, and
raises no corruption warning. -/
theorem C7_save_load_roundtrip (store : Store) (s : ScheduleState) (now : Int)
    (cron : Option NextFn) :
    (load_state (save_state store s) now s.schedule cron).state = s ∧
    (load_state (save_state store s) now s.schedule cron).store = save_state store s ∧
    (load_state (save_state store s) now s.schedule cron).warned = false := by
  have hread := save_state_self store s
  simp [load_state, hread, parseRecord_encodeRecord]

/-- Process-introspection collaborator (psutil / os.kill): whether a pid
exists, and the process's creation instant when it can be inspected
(`none` models psutil.NoSuchProcess / psutil.AccessDenied being raised).
The SIGTERM sent to a hung job affects no scheduler state and any failure to
deliver it is swallowed, so it does not appear in the model. -/
structure ProcEnv where
  pid_exists : Int → Bool
  create_time : Int → Option Int

/-- check_stale_job of scheduler.py: decides whether a recorded running job
is actually still running.  `now` stands for the `datetime.now()` calls the
source makes while checking.  The source compares
`abs(total_seconds) > 60` and `total_seconds / 3600 > timeout_hours` on
floats; on integral seconds these are exactly the integer comparisons
`natAbs > 60` and `seconds > timeout_hours * 3600` used here. -/
def check_stale_job (env : ProcEnv) (now : Int) (state : ScheduleState)
    (timeout_hours : Int) : Bool :=
  if state.status ≠ "running" then false
  else
    match state.pid, state.started_at with
    | none, _ => true
    | some _, none => true
    | some pid, some started =>
      if ¬ env.pid_exists pid then true
      else
        match env.create_time pid with
        | none => true
        | some proc_start =>
          if (proc_start - started).natAbs > 60 then true
          else
            if now - started > timeout_hours * 3600 then true else false

/-- Schedule dataclass of config.py, with the pre-validated cron expression
replaced by its recurrence function (see `NextFn`). -/
structure Schedule where
  name : String
  profiles : List String
  cron : Option NextFn

/-- The slice of the Config dataclass the scheduling core reads: the
schedules dict (an insertion-ordered association list in the model) and the
stale-job timeout. -/
structure Config where
  schedules : List (String × Schedule)
  stale_job_timeout_hours : Int

/-- Lookup in the schedules dict (`config.schedules.get(name)` /
`name in config.schedules`). -/
def lookupSched : List (String × Schedule) → String → Option Schedule
  | [], _ => none
  | (k, v) :: rest, name => if k = name then some v else lookupSched rest name

/-- The stale-reconciliation block of the get_overdue_schedules loop: if the
loaded job is stale, mark it failed, stamp finished_at, clear pid and
persist; otherwise leave state and directory untouched. -/
def staleReconcile (env : ProcEnv) (now : Int) (timeout : Int)
    (p : ScheduleState × Store) : ScheduleState × Store :=
  if check_stale_job env now p.1 timeout then
    let s := { p.1 with status := "failed", finished_at := some now, pid := none }
    (s, save_state p.2 s)
  else p

/-- The failed-retry block of the get_overdue_schedules loop: a failed
record whose non-null next_run has passed is set back to pending and
persisted; otherwise untouched. -/
def failedFlip (now : Int) (p : ScheduleState × Store) : ScheduleState × Store :=
  match p.1.next_run with
  | some nr =>
    if p.1.status = "failed" ∧ nr ≤ now then
      let s := { p.1 with status := "pending" }
      (s, save_state p.2 s)
    else p
  | none => p

/-- The overdue-emission step of the get_overdue_schedules loop: when
next_run is non-null and has passed, the schedule is overdue by the elapsed
minutes. -/
def emitOverdue (now : Int) (nm : String) (p : ScheduleState × Store) :
    List (String × ℚ) :=
  match p.1.next_run with
  | some nr =>
    if nr ≤ now then [(nm, mkRat (now - nr) 60)] else []
  | none => []

/-- Body of the per-schedule loop of get_overdue_schedules: skip manual
schedules, load state, reconcile a stale job to failed, skip running jobs,
flip a failed job whose next_run has passed back to pending, and emit the
schedule with its overdue minutes when next_run has passed.  Returns the
state directory after the iteration and the (0- or 1-element) contribution
to the overdue list. -/
def scanItem (env : ProcEnv) (now : Int) (timeout : Int) (store : Store)
    (item : String × Schedule) : Store × List (String × ℚ) :=
  match item.2.cron with
  | none => (store, [])
  | some _ =>
    let L := load_state store now item.1 item.2.cron
    let p1 := staleReconcile env now timeout (L.state, L.store)
    if p1.1.status = "running" then (p1.2, [])
    else
      let p2 := failedFlip now p1
      (p2.2, emitOverdue now item.1 p2)

/-- The `for schedule_name, schedule in config.schedules.items()` loop of
get_overdue_schedules, threading the state directory and accumulating the
overdue entries in iteration order. -/
def scanList (env : ProcEnv) (now : Int) (timeout : Int) :
    Store → List (String × Schedule) → Store × List (String × ℚ)
  | store, [] => (store, [])
  | store, item :: rest =>
    let r := scanItem env now timeout store item
    let rest' := scanList env now timeout r.1 rest
    (rest'.1, r.2 ++ rest'.2)

/-- Insert an entry into a descending-by-minutes list, after every entry
with an equal or larger key (the placement Python's stable
`sort(key, reverse=True)` gives). -/
def insertDesc (x : String × ℚ) : List (String × ℚ) → List (String × ℚ)
  | [] => [x]
  | y :: ys => if y.2 < x.2 then x :: y :: ys else y :: insertDesc x ys

/-- Stable descending sort by overdue minutes, modelling
`overdue.sort(key=lambda x: x[1], reverse=True)`. -/
def sortDesc : List (String × ℚ) → List (String × ℚ)
  | [] => []
  | x :: xs => insertDesc x (sortDesc xs)

/-- get_overdue_schedules of scheduler.py: run the per-schedule loop over
the schedules dict, then sort most-overdue-first.  Returns the state
directory after the scan together with the ranked overdue list. -/
def get_overdue_schedules (env : ProcEnv) (now : Int) (config : Config)
    (store : Store) : Store × List (String × ℚ) :=
  let r := scanList env now config.stale_job_timeout_hours store config.schedules
  (r.1, sortDesc r.2)

/-- Result of one `check` invocation: the state directory afterwards, the
schedule handed to spawn_background_job (if any), and the exit code. -/
structure CheckResult where
  store : Store
  spawned : Option String
  exit_code : Nat

/-- cmd_check of cli.py: scan for overdue schedules; exit 0 silently when
none; otherwise spawn the first (most overdue) entry and exit 0.  The
source acquires no lock of any kind before doing this. -/
def cmd_check (env : ProcEnv) (now : Int) (config : Config)
    (store : Store) : CheckResult :=
  let r := get_overdue_schedules env now config store
  match r.2 with
  | [] => ⟨r.1, none, 0⟩
  | (name, _) :: _ => ⟨r.1, some name, 0⟩

/-- update_state_on_start of scheduler.py; `pid` is the calling process's
`os.getpid()`.  `none` models the ValueError raised for an unknown
schedule name. -/
def update_state_on_start (store : Store) (now : Int) (pid : Int)
    (config : Config) (name : String) : Option Store :=
  match lookupSched config.schedules name with
  | none => none
  | some sched =>
    let L := load_state store now name sched.cron
    some (save_state L.store
      { L.state with status := "running", started_at := some now,
                     pid := some pid, finished_at := none })

/-- update_state_on_finish of scheduler.py: stamp finished_at, on success
set status/last_run and recompute next_run from now, on failure set status
failed leaving next_run unchanged; clear pid; persist.  `none` models the
ValueError raised for an unknown schedule name. -/
def update_state_on_finish (store : Store) (now : Int) (config : Config)
    (name : String) (success : Bool) : Option Store :=
  match lookupSched config.schedules name with
  | none => none
  | some sched =>
    let L := load_state store now name sched.cron
    let s1 := { L.state with finished_at := some now }
    let s2 :=
      if success then
        { s1 with status := "success", last_run := some now,
                  next_run :=
                    match sched.cron with
                    | some f => some (calculate_next_run f now)
                    | none => s1.next_run }
      else { s1 with status := "failed" }
    some (save_state L.store { s2 with pid := none })

/-- cmd_reset of cli.py: unknown schedule → error exit 1, no mutation;
otherwise load the record, set status pending, clear pid/started_at/
finished_at, recompute next_run from now when the schedule is recurring
(null otherwise), and persist.  Returns (exit code, state directory). -/
def cmd_reset (store : Store) (now : Int) (config : Config)
    (name : String) : Nat × Store :=
  match lookupSched config.schedules name with
  | none => (1, store)
  | some sched =>
    let L := load_state store now name sched.cron
    let s := { L.state with
               status := "pending", pid := none, started_at := none,
               finished_at := none,
               next_run := sched.cron.map (fun f => calculate_next_run f now) }
    (0, save_state L.store s)

/-- C5: is_stale returns false for every non-running state; for a running
state it is true when pid or started_at is null, true when the pid does not
exist, true when the process cannot be inspected, true when the actual start
time differs from the recorded one by more than the 60-second tolerance,
true when the elapsed time since started_at exceeds timeout_hours, and false
exactly when pid and start time are verified and the job is within the
timeout. -/
theorem C5_check_stale_job (env : ProcEnv) (now : Int) (state : ScheduleState)
    (timeout_hours : Int) :
    (state.status ≠ "running" → check_stale_job env now state timeout_hours = false) ∧
    (state.status = "running" → (state.pid = none ∨ state.started_at = none) →
      check_stale_job env now state timeout_hours = true) ∧
    (∀ pid started, state.status = "running" → state.pid = some pid →
      state.started_at = some started → env.pid_exists pid = false →
      check_stale_job env now state timeout_hours = true) ∧
    (∀ pid started, state.status = "running" → state.pid = some pid →
      state.started_at = some started → env.pid_exists pid = true →
      env.create_time pid = none →
      check_stale_job env now state timeout_hours = true) ∧
    (∀ pid started ct, state.status = "running" → state.pid = some pid →
      state.started_at = some started → env.pid_exists pid = true →
      env.create_time pid = some ct → |ct - started| > 60 →
      check_stale_job env now state timeout_hours = true) ∧
    (∀ pid started ct, state.status = "running" → state.pid = some pid →
      state.started_at = some started → env.pid_exists pid = true →
      env.create_time pid = some ct → |ct - started| ≤ 60 →
      now - started > timeout_hours * 3600 →
      check_stale_job env now state timeout_hours = true) ∧
    (∀ pid started ct, state.status = "running" → state.pid = some pid →
      state.started_at = some started → env.pid_exists pid = true →
      env.create_time pid = some ct → |ct - started| ≤ 60 →
      now - started ≤ timeout_hours * 3600 →
      check_stale_job env now state timeout_hours = false) := by
  refine ⟨?_, ?_, ?_, ?_, ?_, ?_, ?_⟩
  · intro h
    simp [check_stale_job, h]
  · intro h hn
    rcases hn with hp | hs
    · simp [check_stale_job, h, hp]
    · cases hpid : state.pid <;> simp [check_stale_job, h, hs, hpid]
  · intro pid started h hp hs hex
    simp [check_stale_job, h, hp, hs, hex]
  · intro pid started h hp hs hex hct
    simp [check_stale_job, h, hp, hs, hex, hct]
  · intro pid started ct h hp hs hex hct hdiff
    simp [check_stale_job, h, hp, hs, hex, hct]
    left
    rw [Int.abs_eq_natAbs] at hdiff
    exact_mod_cast hdiff
  · intro pid started ct h hp hs hex hct hdiff hrt
    simp [check_stale_job, h, hp, hs, hex, hct]
    right
    exact hrt
  · intro pid started ct h hp hs hex hct hdiff hrt
    simp [check_stale_job, h, hp, hs, hex, hct]
    constructor
    · rw [Int.abs_eq_natAbs] at hdiff
      exact_mod_cast hdiff
    · omega

/-- A running record whose process is gone. -/
def stRunningDead : ScheduleState :=
  { schedule := "daily", last_run := none, next_run := some 2000,
    status := "running", started_at := some 0, finished_at := none,
    pid := some 42 }

/-- A host with no live processes. -/
def envDead : ProcEnv := ⟨fun _ => false, fun _ => none⟩

/-- A host where every pid exists with creation instant 30. -/
def envLive : ProcEnv := ⟨fun _ => true, fun _ => some 30⟩

/-- Witness for C5: a running record with a dead pid is stale; the same
record on a host where the pid is alive, start times agree within tolerance
and the runtime is within the timeout is not; a non-running record is never
stale. -/
theorem C5_witness :
    check_stale_job envDead 3600 stRunningDead 24 = true ∧
    check_stale_job envLive 3600 stRunningDead 24 = false ∧
    check_stale_job envDead 3600 (freshState "daily" none 0) 24 = false := by
  refine ⟨?_, ?_, ?_⟩
  · exact (C5_check_stale_job envDead 3600 stRunningDead 24).2.2.1 42 0
      (by rfl) (by rfl) (by rfl) (by rfl)
  · exact (C5_check_stale_job envLive 3600 stRunningDead 24).2.2.2.2.2.2 42 0 30
      (by rfl) (by rfl) (by rfl) (by rfl) (by rfl) (by decide) (by decide)
  · exact (C5_check_stale_job envDead 3600 (freshState "daily" none 0) 24).1
      (by decide)

/-- The daily recurrence used in concrete scenarios: next trigger one day
(1440 time units) later. -/
def fDaily : NextFn := fun t => t + 1440

/-- A recurring schedule named daily. -/
def schedDaily : Schedule := ⟨"daily", ["photos"], some fDaily⟩

/-- A configuration with the single recurring schedule daily and the default
24-hour stale timeout. -/
def cfgDaily : Config := ⟨[("daily", schedDaily)], 24⟩

/-- The empty state directory. -/
def emptyStore : Store := fun _ => none

/-- C6: for every known schedule, on_finish with success=false persists the
loaded record with status failed, finished_at stamped to now and pid
cleared, and with next_run and last_run exactly as loaded. -/
theorem C6_on_finish_failure (store : Store) (now : Int) (config : Config)
    (name : String) (sched : Schedule)
    (h : lookupSched config.schedules name = some sched) :
    update_state_on_finish store now config name false =
      some (save_state (load_state store now name sched.cron).store
        { (load_state store now name sched.cron).state with
          status := "failed", finished_at := some now, pid := none }) ∧
    ({ (load_state store now name sched.cron).state with
       status := "failed", finished_at := some now, pid := none
       : ScheduleState }).next_run =
      (load_state store now name sched.cron).state.next_run ∧
    ({ (load_state store now name sched.cron).state with
       status := "failed", finished_at := some now, pid := none
       : ScheduleState }).last_run =
      (load_state store now name sched.cron).state.last_run := by
  refine ⟨?_, rfl, rfl⟩
  simp [update_state_on_finish, h]

/-- Witness for C6: finishing the daily schedule unsuccessfully on an empty
state directory persists the freshly created record as failed with
finished_at stamped and pid null, keeping its next_run and last_run. -/
theorem C6_witness :
    update_state_on_finish emptyStore 7 cfgDaily "daily" false =
      some (save_state (load_state emptyStore 7 "daily" schedDaily.cron).store
        { (load_state emptyStore 7 "daily" schedDaily.cron).state with
          status := "failed", finished_at := some 7, pid := none }) :=
  (C6_on_finish_failure emptyStore 7 cfgDaily "daily" schedDaily rfl).1

/-- A persisted record carrying an invalid enum value in the status field
but well-formed everywhere else. -/
def bogusState : ScheduleState :=
  { schedule := "s", last_run := some 5, next_run := some 10,
    status := "bogus", started_at := some 3, finished_at := none,
    pid := some 7 }

/-- C2 counterexample: a persisted record whose status field holds the
invalid enum value "bogus" is NOT treated as absent by load_state — it is
returned verbatim (status still "bogus", last_run still populated), no
warning is logged and nothing is rewritten, contradicting the claim that an
invalid enum value triggers the recovery path. -/
theorem C2_counterexample :
    (load_state (save_state emptyStore bogusState) 0 "s" none).state.status = "bogus" ∧
    (load_state (save_state emptyStore bogusState) 0 "s" none).state.last_run = some 5 ∧
    (load_state (save_state emptyStore bogusState) 0 "s" none).warned = false ∧
    (load_state (save_state emptyStore bogusState) 0 "s" none).store "s" =
      save_state emptyStore bogusState "s" :=
  ⟨rfl, rfl, rfl, rfl⟩

/-- C2 (amended): for every schedule name whose persisted record is
unreadable (JSON parse failure) or malformed in a way the source detects
(missing required field, or malformed timestamp string raising ValueError),
load_state treats the record as absent: it logs a warning, creates a fresh
pending record (next_run computed from now when a recurrence expression is
given, else null), persists it and returns it without error.  An invalid
enum value in the status field is not detected. -/
theorem C2_corruption_recovery (store : Store) (now : Int) (name : String)
    (cron : Option NextFn)
    (h : store name = some .junk ∨
         ∃ r, store name = some (.record r) ∧ parseRecord r = none) :
    load_state store now name cron =
      ⟨freshState name cron now, save_state store (freshState name cron now), true⟩ ∧
    (freshState name cron now).status = "pending" ∧
    (freshState name cron now).next_run =
      cron.map (fun f => calculate_next_run f now) := by
  refine ⟨?_, rfl, rfl⟩
  rcases h with h | ⟨r, h, hp⟩
  · simp [load_state, h]
  · simp [load_state, h, hp]

/-- Witness for C2 (amended): loading a schedule whose state file is
unparsable JSON yields the fresh pending record, persists it and warns. -/
theorem C2_witness :
    load_state (fun k => if k = "s" then some .junk else none) 5 "s" none =
      ⟨freshState "s" none 5,
       save_state (fun k => if k = "s" then some .junk else none)
         (freshState "s" none 5), true⟩ :=
  (C2_corruption_recovery (fun k => if k = "s" then some .junk else none)
    5 "s" none (Or.inl rfl)).1

/-- A successfully completed record for the daily schedule, with a non-null
last_run. -/
def succState : ScheduleState :=
  { schedule := "daily", last_run := some 5, next_run := some 10,
    status := "success", started_at := none, finished_at := some 6,
    pid := none }

/-- C3 counterexample: resetting the daily schedule whose record has
last_run = 5 persists a pending record that still carries last_run = 5 —
cmd_reset never clears last_run, contradicting the claim that reset leaves
last_run null as on first creation. -/
theorem C3_counterexample :
    (cmd_reset (save_state emptyStore succState) 100 cfgDaily "daily").1 = 0 ∧
    (cmd_reset (save_state emptyStore succState) 100 cfgDaily "daily").2 "daily" =
      some (.record (encodeRecord
        { schedule := "daily", last_run := some 5, next_run := some 1540,
          status := "pending", started_at := none, finished_at := none,
          pid := none })) :=
  ⟨rfl, rfl⟩

/-- C3 (amended): for every known schedule, reset persists the loaded record
with status pending, started_at, finished_at and pid all null, and next_run
recomputed from now when the schedule has a recurrence expression (null
otherwise); last_run is left exactly as in the loaded record, not cleared. -/
theorem C3_reset (store : Store) (now : Int) (config : Config)
    (name : String) (sched : Schedule)
    (h : lookupSched config.schedules name = some sched) :
    cmd_reset store now config name =
      (0, save_state (load_state store now name sched.cron).store
        { (load_state store now name sched.cron).state with
          status := "pending", pid := none, started_at := none,
          finished_at := none,
          next_run := sched.cron.map (fun f => calculate_next_run f now) }) ∧
    ({ (load_state store now name sched.cron).state with
       status := "pending", pid := none, started_at := none,
       finished_at := none,
       next_run := sched.cron.map (fun f => calculate_next_run f now)
       : ScheduleState }).last_run =
      (load_state store now name sched.cron).state.last_run := by
  refine ⟨?_, rfl⟩
  simp [cmd_reset, h]

/-- Witness for C3 (amended): resetting the daily schedule after a
successful run yields exit code 0 and the reinitialized record. -/
theorem C3_witness :
    cmd_reset (save_state emptyStore succState) 100 cfgDaily "daily" =
      (0, save_state
        (load_state (save_state emptyStore succState) 100 "daily" schedDaily.cron).store
        { (load_state (save_state emptyStore succState) 100 "daily" schedDaily.cron).state with
          status := "pending", pid := none, started_at := none,
          finished_at := none,
          next_run := schedDaily.cron.map (fun f => calculate_next_run f 100) }) :=
  (C3_reset (save_state emptyStore succState) 100 cfgDaily "daily" schedDaily rfl).1

/-- The invariant of §3 of the spec: a record is running exactly when both
pid and started_at are populated. -/
def StateInv (s : ScheduleState) : Prop :=
  s.status = "running" ↔ (s.pid ≠ none ∧ s.started_at ≠ none)

/-- Every parseable record in the state directory satisfies `StateInv`. -/
def StoreInv (store : Store) : Prop :=
  ∀ k r s, store k = some (.record r) → parseRecord r = some s → StateInv s

/-- Every parseable record in the state directory carries the schedule name
it is keyed by (true of everything the core itself writes, since save_state
derives the file name from the record). -/
def WellKeyed (store : Store) : Prop :=
  ∀ k r s, store k = some (.record r) → parseRecord r = some s → s.schedule = k

/-- The fresh pending record satisfies the running/pid invariant. -/
theorem stateInv_fresh (name : String) (cron : Option NextFn) (now : Int) :
    StateInv (freshState name cron now) := by
  simp [StateInv, freshState]

/-- Saving a record satisfying the invariant preserves `StoreInv`. -/
theorem storeInv_save (store : Store) (s : ScheduleState)
    (hst : StoreInv store) (hs : StateInv s) : StoreInv (save_state store s) := by
  intro k r s' hk hp
  by_cases hkey : k = s.schedule
  · subst hkey
    rw [save_state_self] at hk
    have hr : r = encodeRecord s := by
      injection hk with h1
      injection h1 with h2
      exact h2.symm
    subst hr
    rw [parseRecord_encodeRecord] at hp
    injection hp with hp
    exact hp ▸ hs
  · rw [save_state_other store s k hkey] at hk
    exact hst k r s' hk hp

/-- Saving always preserves `WellKeyed`: the file name is taken from the
record being written. -/
theorem wellKeyed_save (store : Store) (s : ScheduleState)
    (hst : WellKeyed store) : WellKeyed (save_state store s) := by
  intro k r s' hk hp
  by_cases hkey : k = s.schedule
  · subst hkey
    rw [save_state_self] at hk
    have hr : r = encodeRecord s := by
      injection hk with h1
      injection h1 with h2
      exact h2.symm
    subst hr
    rw [parseRecord_encodeRecord] at hp
    injection hp with hp
    exact hp ▸ rfl
  · rw [save_state_other store s k hkey] at hk
    exact hst k r s' hk hp

/-- Case analysis on load_state: either the record was (re)created fresh
and persisted, or it parsed and was returned with the store untouched. -/
theorem load_state_spec (store : Store) (now : Int) (name : String)
    (cron : Option NextFn) :
    ((load_state store now name cron).state = freshState name cron now ∧
     (load_state store now name cron).store =
       save_state store (freshState name cron now)) ∨
    (∃ r, store name = some (.record r) ∧
      parseRecord r = some (load_state store now name cron).state ∧
      (load_state store now name cron).store = store) := by
  cases hn : store name with
  | none => exact Or.inl ⟨by simp [load_state, hn], by simp [load_state, hn]⟩
  | some fc =>
    cases fc with
    | junk => exact Or.inl ⟨by simp [load_state, hn], by simp [load_state, hn]⟩
    | record r =>
      cases hp : parseRecord r with
      | none => exact Or.inl ⟨by simp [load_state, hn, hp], by simp [load_state, hn, hp]⟩
      | some s =>
        exact Or.inr ⟨r, rfl, by simp [load_state, hn, hp], by simp [load_state, hn, hp]⟩

/-- load_state preserves `StoreInv`. -/
theorem load_state_storeInv (store : Store) (now : Int) (name : String)
    (cron : Option NextFn) (h : StoreInv store) :
    StoreInv (load_state store now name cron).store := by
  rcases load_state_spec store now name cron with ⟨_, hs⟩ | ⟨r, _, _, hs⟩
  · rw [hs]; exact storeInv_save store _ h (stateInv_fresh name cron now)
  · rw [hs]; exact h

/-- The state load_state returns satisfies the invariant when the directory
does. -/
theorem load_state_stateInv (store : Store) (now : Int) (name : String)
    (cron : Option NextFn) (h : StoreInv store) :
    StateInv (load_state store now name cron).state := by
  rcases load_state_spec store now name cron with ⟨hst, _⟩ | ⟨r, hn, hp, _⟩
  · rw [hst]; exact stateInv_fresh name cron now
  · exact h name r _ hn hp

/-- load_state preserves `WellKeyed`. -/
theorem load_state_wellKeyed (store : Store) (now : Int) (name : String)
    (cron : Option NextFn) (h : WellKeyed store) :
    WellKeyed (load_state store now name cron).store := by
  rcases load_state_spec store now name cron with ⟨_, hs⟩ | ⟨r, _, _, hs⟩
  · rw [hs]; exact wellKeyed_save store _ h
  · rw [hs]; exact h

/-- The state load_state returns carries the requested name when the
directory is well-keyed. -/
theorem load_state_schedule (store : Store) (now : Int) (name : String)
    (cron : Option NextFn) (h : WellKeyed store) :
    (load_state store now name cron).state.schedule = name := by
  rcases load_state_spec store now name cron with ⟨hst, _⟩ | ⟨r, hn, hp, _⟩
  · rw [hst]; rfl
  · exact h name r _ hn hp

/-- load_state touches no key other than the one it loads. -/
theorem load_state_frame (store : Store) (now : Int) (name : String)
    (cron : Option NextFn) (n : String) (hn : n ≠ name) :
    (load_state store now name cron).store n = store n := by
  rcases load_state_spec store now name cron with ⟨_, hs⟩ | ⟨r, _, _, hs⟩
  · rw [hs]; exact save_state_other store _ n hn
  · rw [hs]

/-- Marking a failed record pending keeps the running/pid invariant. -/
theorem stateInv_pending_of_failed (s : ScheduleState) (hinv : StateInv s)
    (hst : s.status = "failed") :
    StateInv { s with status := "pending" } := by
  have hne : ¬ (s.pid ≠ none ∧ s.started_at ≠ none) := by
    intro hc
    have := hinv.mpr hc
    rw [hst] at this
    simp at this
  simp only [StateInv] at *
  constructor
  · intro h
    simp at h
  · intro hc
    exact absurd hc hne

/-- The stale reconciliation write satisfies the running/pid invariant. -/
theorem stateInv_stale_write (s : ScheduleState) (now : Int) :
    StateInv { s with status := "failed", finished_at := some now, pid := none } := by
  simp [StateInv]


/-- Case analysis on the stale-reconciliation step. -/
theorem staleReconcile_spec (env : ProcEnv) (now timeout : Int)
    (p : ScheduleState × Store) :
    (check_stale_job env now p.1 timeout = false ∧
     staleReconcile env now timeout p = p) ∨
    (check_stale_job env now p.1 timeout = true ∧
     staleReconcile env now timeout p =
       ({ p.1 with status := "failed", finished_at := some now, pid := none },
        save_state p.2
          { p.1 with status := "failed", finished_at := some now, pid := none })) := by
  by_cases h : check_stale_job env now p.1 timeout = true
  · exact Or.inr ⟨h, by simp [staleReconcile, h]⟩
  · exact Or.inl ⟨by simpa using h, by simp [staleReconcile, h]⟩

/-- The stale step does not change which schedule the record names. -/
theorem staleReconcile_schedule (env : ProcEnv) (now timeout : Int)
    (p : ScheduleState × Store) :
    (staleReconcile env now timeout p).1.schedule = p.1.schedule := by
  rcases staleReconcile_spec env now timeout p with ⟨_, h⟩ | ⟨_, h⟩ <;> rw [h]

/-- The stale step does not change next_run. -/
theorem staleReconcile_next_run (env : ProcEnv) (now timeout : Int)
    (p : ScheduleState × Store) :
    (staleReconcile env now timeout p).1.next_run = p.1.next_run := by
  rcases staleReconcile_spec env now timeout p with ⟨_, h⟩ | ⟨_, h⟩ <;> rw [h]

/-- The stale step writes only under the record's own schedule name. -/
theorem staleReconcile_frame (env : ProcEnv) (now timeout : Int)
    (p : ScheduleState × Store) (n : String) (hn : n ≠ p.1.schedule) :
    (staleReconcile env now timeout p).2 n = p.2 n := by
  rcases staleReconcile_spec env now timeout p with ⟨_, h⟩ | ⟨_, h⟩ <;> rw [h]
  exact save_state_other _ _ _ hn

/-- The stale step preserves well-keyedness of the directory. -/
theorem staleReconcile_wellKeyed (env : ProcEnv) (now timeout : Int)
    (p : ScheduleState × Store) (h : WellKeyed p.2) :
    WellKeyed (staleReconcile env now timeout p).2 := by
  rcases staleReconcile_spec env now timeout p with ⟨_, hs⟩ | ⟨_, hs⟩ <;> rw [hs]
  · exact h
  · exact wellKeyed_save _ _ h

/-- The stale step preserves the running/pid invariant of the directory. -/
theorem staleReconcile_storeInv (env : ProcEnv) (now timeout : Int)
    (p : ScheduleState × Store) (h : StoreInv p.2) :
    StoreInv (staleReconcile env now timeout p).2 := by
  rcases staleReconcile_spec env now timeout p with ⟨_, hs⟩ | ⟨_, hs⟩ <;> rw [hs]
  · exact h
  · exact storeInv_save _ _ h (stateInv_stale_write _ now)

/-- The state produced by the stale step satisfies the running/pid
invariant when the input state does. -/
theorem staleReconcile_stateInv (env : ProcEnv) (now timeout : Int)
    (p : ScheduleState × Store) (h : StateInv p.1) :
    StateInv (staleReconcile env now timeout p).1 := by
  rcases staleReconcile_spec env now timeout p with ⟨_, hs⟩ | ⟨_, hs⟩ <;> rw [hs]
  · exact h
  · exact stateInv_stale_write _ now

/-- Case analysis on the failed-retry step. -/
theorem failedFlip_spec (now : Int) (p : ScheduleState × Store) :
    failedFlip now p = p ∨
    (∃ nr, p.1.next_run = some nr ∧ p.1.status = "failed" ∧ nr ≤ now ∧
      failedFlip now p =
        ({ p.1 with status := "pending" },
         save_state p.2 { p.1 with status := "pending" })) := by
  cases hnr : p.1.next_run with
  | none => exact Or.inl (by simp [failedFlip, hnr])
  | some nr =>
    by_cases hcond : p.1.status = "failed" ∧ nr ≤ now
    · exact Or.inr ⟨nr, rfl, hcond.1, hcond.2, by simp [failedFlip, hnr, hcond]⟩
    · exact Or.inl (by simp [failedFlip, hnr, hcond])

/-- The failed-retry step does not change which schedule the record names. -/
theorem failedFlip_schedule (now : Int) (p : ScheduleState × Store) :
    (failedFlip now p).1.schedule = p.1.schedule := by
  rcases failedFlip_spec now p with h | ⟨nr, _, _, _, h⟩ <;> rw [h]

/-- The failed-retry step does not change next_run. -/
theorem failedFlip_next_run (now : Int) (p : ScheduleState × Store) :
    (failedFlip now p).1.next_run = p.1.next_run := by
  rcases failedFlip_spec now p with h | ⟨nr, _, _, _, h⟩ <;> rw [h]

/-- The failed-retry step writes only under the record's own schedule
name. -/
theorem failedFlip_frame (now : Int) (p : ScheduleState × Store) (n : String)
    (hn : n ≠ p.1.schedule) : (failedFlip now p).2 n = p.2 n := by
  rcases failedFlip_spec now p with h | ⟨nr, _, _, _, h⟩ <;> rw [h]
  exact save_state_other _ _ _ hn

/-- The failed-retry step preserves well-keyedness of the directory. -/
theorem failedFlip_wellKeyed (now : Int) (p : ScheduleState × Store)
    (h : WellKeyed p.2) : WellKeyed (failedFlip now p).2 := by
  rcases failedFlip_spec now p with hs | ⟨nr, _, _, _, hs⟩ <;> rw [hs]
  · exact h
  · exact wellKeyed_save _ _ h

/-- The failed-retry step preserves the running/pid invariant of the
directory (the flipped record inherits it from the failed record it came
from). -/
theorem failedFlip_storeInv (now : Int) (p : ScheduleState × Store)
    (h : StoreInv p.2) (hst : StateInv p.1) : StoreInv (failedFlip now p).2 := by
  rcases failedFlip_spec now p with hs | ⟨nr, _, hfail, _, hs⟩ <;> rw [hs]
  · exact h
  · exact storeInv_save _ _ h (stateInv_pending_of_failed _ hst hfail)

/-- Every entry the emission step produces is named after the scanned
schedule. -/
theorem emitOverdue_names (now : Int) (nm : String) (p : ScheduleState × Store)
    (q : String × ℚ) (hq : q ∈ emitOverdue now nm p) : q.1 = nm := by
  unfold emitOverdue at hq
  cases hnr : p.1.next_run with
  | none => rw [hnr] at hq; simp at hq
  | some nr =>
    rw [hnr] at hq
    by_cases hd : nr ≤ now
    · simp [hd] at hq
      rw [hq]
    · simp [hd] at hq

/-- Structural facts about one iteration of the overdue scan: it keeps the
directory well-keyed, writes only under its own schedule name, contributes
only entries named after its own schedule, and preserves the running/pid
invariant of every stored record. -/
theorem scanItem_main (env : ProcEnv) (now timeout : Int) (store : Store)
    (nm : String) (sched : Schedule) (hwk : WellKeyed store) :
    WellKeyed (scanItem env now timeout store (nm, sched)).1 ∧
    (∀ n, n ≠ nm → (scanItem env now timeout store (nm, sched)).1 n = store n) ∧
    (∀ p ∈ (scanItem env now timeout store (nm, sched)).2, p.1 = nm) ∧
    (StoreInv store → StoreInv (scanItem env now timeout store (nm, sched)).1) := by
  cases hc : sched.cron with
  | none =>
    simp only [scanItem, hc]
    refine ⟨hwk, ?_, ?_, fun h => h⟩ <;> simp
  | some f =>
    have hLwk := load_state_wellKeyed store now nm (some f) hwk
    have hLsch := load_state_schedule store now nm (some f) hwk
    have hLframe := load_state_frame store now nm (some f)
    have hLSinv := load_state_storeInv store now nm (some f)
    have hLstate := load_state_stateInv store now nm (some f)
    simp only [scanItem, hc]
    set L := load_state store now nm (some f) with hL
    set p1 := staleReconcile env now timeout (L.state, L.store) with hp1
    have hp1sch : p1.1.schedule = nm := by
      rw [hp1, staleReconcile_schedule]; exact hLsch
    have hp1wk : WellKeyed p1.2 := staleReconcile_wellKeyed env now timeout _ hLwk
    have hp1frame : ∀ n, n ≠ nm → p1.2 n = store n := by
      intro n hn
      rw [hp1, staleReconcile_frame env now timeout _ n (by simpa [hLsch] using hn)]
      exact hLframe n hn
    have hp1inv : StoreInv store → StoreInv p1.2 :=
      fun h => staleReconcile_storeInv env now timeout _ (hLSinv h)
    have hp1st : StoreInv store → StateInv p1.1 :=
      fun h => staleReconcile_stateInv env now timeout _ (hLstate h)
    by_cases hrun : p1.1.status = "running"
    · simp only [if_pos hrun]
      exact ⟨hp1wk, hp1frame, by simp, hp1inv⟩
    · simp only [if_neg hrun]
      set p2 := failedFlip now p1 with hp2
      have hp2sch : p2.1.schedule = nm := by
        rw [hp2, failedFlip_schedule]; exact hp1sch
      refine ⟨failedFlip_wellKeyed now p1 hp1wk, ?_, ?_, ?_⟩
      · intro n hn
        rw [hp2, failedFlip_frame now p1 n (by simpa [hp1sch] using hn)]
        exact hp1frame n hn
      · intro p hp
        exact emitOverdue_names now nm p2 p hp
      · exact fun h => failedFlip_storeInv now p1 (hp1inv h) (hp1st h)

/-- Membership in the insertion step of the descending sort. -/
theorem mem_insertDesc (x y : String × ℚ) (l : List (String × ℚ)) :
    y ∈ insertDesc x l ↔ y = x ∨ y ∈ l := by
  induction l with
  | nil => simp [insertDesc]
  | cons z zs ih =>
    by_cases h : z.2 < x.2
    · simp [insertDesc, h]
    · simp [insertDesc, h, ih]
      tauto

/-- Sorting the overdue list permutes membership only. -/
theorem mem_sortDesc (y : String × ℚ) (l : List (String × ℚ)) :
    y ∈ sortDesc l ↔ y ∈ l := by
  induction l with
  | nil => simp [sortDesc]
  | cons z zs ih => simp [sortDesc, mem_insertDesc, ih]

/-- Inserting into a descending list keeps it descending. -/
theorem pairwise_insertDesc (x : String × ℚ) (l : List (String × ℚ))
    (h : List.Pairwise (fun a b => b.2 ≤ a.2) l) :
    List.Pairwise (fun a b => b.2 ≤ a.2) (insertDesc x l) := by
  induction l with
  | nil => simp [insertDesc]
  | cons z zs ih =>
    rcases List.pairwise_cons.mp h with ⟨hz, hzs⟩
    by_cases hlt : z.2 < x.2
    · simp only [insertDesc, if_pos hlt]
      refine List.pairwise_cons.mpr ⟨?_, h⟩
      intro b hb
      rcases List.mem_cons.mp hb with rfl | hb
      · exact le_of_lt hlt
      · exact le_trans (hz b hb) (le_of_lt hlt)
    · simp only [insertDesc, if_neg hlt]
      refine List.pairwise_cons.mpr ⟨?_, ih hzs⟩
      intro b hb
      rcases (mem_insertDesc x b zs).mp hb with rfl | hb
      · exact not_lt.mp hlt
      · exact hz b hb

/-- The sorted overdue list is descending by overdue minutes. -/
theorem sortDesc_sorted (l : List (String × ℚ)) :
    List.Pairwise (fun a b => b.2 ≤ a.2) (sortDesc l) := by
  induction l with
  | nil => simp [sortDesc]
  | cons z zs ih => exact pairwise_insertDesc z (sortDesc zs) ih

/-- The head of the sorted overdue list dominates every entry. -/
theorem sortDesc_head_max (l : List (String × ℚ)) (hd : String × ℚ)
    (h : (sortDesc l).head? = some hd) :
    ∀ p ∈ l, p.2 ≤ hd.2 := by
  intro p hp
  have hmem : p ∈ sortDesc l := (mem_sortDesc p l).mpr hp
  cases hs : sortDesc l with
  | nil => rw [hs] at hmem; simp at hmem
  | cons a rest =>
    rw [hs] at h
    have ha : hd = a := by
      simp only [List.head?] at h
      injection h with h
      exact h.symm
    have hpw := sortDesc_sorted l
    rw [hs] at hpw
    rcases List.pairwise_cons.mp hpw with ⟨hmax, _⟩
    rw [hs] at hmem
    rcases List.mem_cons.mp hmem with rfl | hmem
    · exact ha ▸ le_refl _
    · exact ha ▸ hmax p hmem

/-- Unfolding one step of the scan loop. -/
theorem scanList_cons (env : ProcEnv) (now timeout : Int) (store : Store)
    (it : String × Schedule) (rest : List (String × Schedule)) :
    scanList env now timeout store (it :: rest) =
      ((scanList env now timeout (scanItem env now timeout store it).1 rest).1,
       (scanItem env now timeout store it).2 ++
         (scanList env now timeout (scanItem env now timeout store it).1 rest).2) := rfl

/-- The scan loop over a concatenation splits into two passes. -/
theorem scanList_append (env : ProcEnv) (now timeout : Int)
    (l1 l2 : List (String × Schedule)) (store : Store) :
    scanList env now timeout store (l1 ++ l2) =
      ((scanList env now timeout (scanList env now timeout store l1).1 l2).1,
       (scanList env now timeout store l1).2 ++
         (scanList env now timeout (scanList env now timeout store l1).1 l2).2) := by
  induction l1 generalizing store with
  | nil => simp [scanList]
  | cons it rest ih =>
    simp only [List.cons_append, scanList_cons, ih, List.append_assoc]

/-- Structural facts about the whole scan loop, extending
`scanItem_main` to a list of schedules. -/
theorem scanList_main (env : ProcEnv) (now timeout : Int)
    (items : List (String × Schedule)) :
    ∀ store : Store, WellKeyed store →
    WellKeyed (scanList env now timeout store items).1 ∧
    (∀ n, (∀ it ∈ items, n ≠ it.1) →
      (scanList env now timeout store items).1 n = store n) ∧
    (∀ p ∈ (scanList env now timeout store items).2, ∃ it ∈ items, p.1 = it.1) ∧
    (StoreInv store → StoreInv (scanList env now timeout store items).1) := by
  induction items with
  | nil =>
    intro store hwk
    exact ⟨hwk, fun n _ => rfl, by simp [scanList], fun h => h⟩
  | cons it rest ih =>
    intro store hwk
    obtain ⟨nm, sched⟩ := it
    have hmain := scanItem_main env now timeout store nm sched hwk
    have hrest := ih (scanItem env now timeout store (nm, sched)).1 hmain.1
    rw [scanList_cons]
    refine ⟨hrest.1, ?_, ?_, ?_⟩
    · intro n hn
      have h2 := hrest.2.1 n (fun it2 hit2 => hn it2 (List.mem_cons_of_mem _ hit2))
      rw [h2]
      exact hmain.2.1 n (hn (nm, sched) (List.mem_cons_self _ _))
    · intro p hp
      rcases List.mem_append.mp hp with hp | hp
      · exact ⟨(nm, sched), List.mem_cons_self _ _, hmain.2.2.1 p hp⟩
      · obtain ⟨it2, hit2, hpe⟩ := hrest.2.2.1 p hp
        exact ⟨it2, List.mem_cons_of_mem _ hit2, hpe⟩
    · exact fun hinv => hrest.2.2.2 (hmain.2.2.2 hinv)

/-- The record on_start writes satisfies the running/pid invariant. -/
theorem stateInv_on_start_write (s : ScheduleState) (now pid : Int) :
    StateInv { s with status := "running", started_at := some now,
                      pid := some pid, finished_at := none } := by
  simp [StateInv]

/-- The empty directory trivially satisfies both directory invariants. -/
theorem emptyStore_invariants : StoreInv emptyStore ∧ WellKeyed emptyStore := by
  constructor <;> intro k r s h <;> simp [emptyStore] at h

/-- C9: starting from a state directory whose records satisfy the
running ⇔ (pid and started_at non-null) invariant (and are keyed by their
own name, as everything the core writes is), every core operation — lazy
creation in load_state, on_start, on_finish, the overdue scan with its
stale reconciliation and failed→pending flip, and reset — leaves a
directory in which every record still satisfies the invariant. -/
theorem C9_running_invariant (store : Store) (hinv : StoreInv store)
    (hwk : WellKeyed store) :
    (∀ now name cron, StoreInv (load_state store now name cron).store) ∧
    (∀ now pid config name store',
      update_state_on_start store now pid config name = some store' →
      StoreInv store') ∧
    (∀ now config name success store',
      update_state_on_finish store now config name success = some store' →
      StoreInv store') ∧
    (∀ env now config, StoreInv (get_overdue_schedules env now config store).1) ∧
    (∀ now config name, StoreInv (cmd_reset store now config name).2) := by
  refine ⟨?_, ?_, ?_, ?_, ?_⟩
  · intro now name cron
    exact load_state_storeInv store now name cron hinv
  · intro now pid config name store' h
    cases hl : lookupSched config.schedules name with
    | none => simp [update_state_on_start, hl] at h
    | some sched =>
      simp only [update_state_on_start, hl, Option.some.injEq] at h
      rw [← h]
      exact storeInv_save _ _ (load_state_storeInv store now name sched.cron hinv)
        (stateInv_on_start_write _ now pid)
  · intro now config name success store' h
    cases hl : lookupSched config.schedules name with
    | none => simp [update_state_on_finish, hl] at h
    | some sched =>
      simp only [update_state_on_finish, hl, Option.some.injEq] at h
      rw [← h]
      refine storeInv_save _ _ (load_state_storeInv store now name sched.cron hinv) ?_
      cases success <;> simp [StateInv]
  · intro env now config
    exact (scanList_main env now config.stale_job_timeout_hours
      config.schedules store hwk).2.2.2 hinv
  · intro now config name
    cases hl : lookupSched config.schedules name with
    | none => simp [cmd_reset, hl]; exact hinv
    | some sched =>
      simp only [cmd_reset, hl]
      exact storeInv_save _ _ (load_state_storeInv store now name sched.cron hinv)
        (by simp [StateInv])

/-- Witness for C9: on the empty directory the invariant holds after lazy
creation and after a reset of the daily schedule. -/
theorem C9_witness :
    StoreInv (load_state emptyStore 0 "daily" (some fDaily)).store ∧
    StoreInv (cmd_reset emptyStore 0 cfgDaily "daily").2 :=
  ⟨(C9_running_invariant emptyStore emptyStore_invariants.1
      emptyStore_invariants.2).1 0 "daily" (some fDaily),
   (C9_running_invariant emptyStore emptyStore_invariants.1
      emptyStore_invariants.2).2.2.2.2 0 cfgDaily "daily"⟩

/-- C10: each check invocation exits with status 0 and spawns at most one
job: exactly the head of the ranked overdue list when it is non-empty
(which dominates every entry of the list in overdue minutes), and nothing
when the list is empty. -/
theorem C10_check_spawns_head (env : ProcEnv) (now : Int) (config : Config)
    (store : Store) :
    (cmd_check env now config store).exit_code = 0 ∧
    (cmd_check env now config store).spawned =
      (get_overdue_schedules env now config store).2.head?.map Prod.fst ∧
    ((get_overdue_schedules env now config store).2 = [] →
      (cmd_check env now config store).spawned = none) ∧
    (∀ hd, (get_overdue_schedules env now config store).2.head? = some hd →
      ∀ p ∈ (get_overdue_schedules env now config store).2, p.2 ≤ hd.2) := by
  refine ⟨?_, ?_, ?_, ?_⟩
  · cases h : (get_overdue_schedules env now config store).2 with
    | nil => simp [cmd_check, h]
    | cons a rest => obtain ⟨nm, q⟩ := a; simp [cmd_check, h]
  · cases h : (get_overdue_schedules env now config store).2 with
    | nil => simp [cmd_check, h]
    | cons a rest => obtain ⟨nm, q⟩ := a; simp [cmd_check, h]
  · intro h
    simp [cmd_check, h]
  · intro hd hhd p hp
    have h2 : (get_overdue_schedules env now config store).2 =
        sortDesc (scanList env now config.stale_job_timeout_hours store
          config.schedules).2 := rfl
    rw [h2] at hhd hp
    exact sortDesc_head_max _ hd hhd p ((mem_sortDesc p _).mp hp)

/-- A pending record overdue since instant nr. -/
def stOver (nm : String) (nr : Int) : ScheduleState :=
  { schedule := nm, last_run := none, next_run := some nr,
    status := "pending", started_at := none, finished_at := none, pid := none }

/-- A directory with two overdue pending schedules. -/
def storeTwo : Store :=
  save_state (save_state emptyStore (stOver "a" 10)) (stOver "b" 40)

/-- A configuration with two recurring schedules. -/
def cfgTwo : Config :=
  ⟨[("a", ⟨"a", ["photos"], some fDaily⟩), ("b", ⟨"b", ["docs"], some fDaily⟩)], 24⟩

/-- Witness for C10: with schedules a and b overdue by 90 and 60 time units
the check spawns the head of the ranked list, namely a, and b's overdue
minutes are dominated by a's. -/
theorem C10_witness :
    (cmd_check envDead 100 cfgTwo storeTwo).spawned =
      (get_overdue_schedules envDead 100 cfgTwo storeTwo).2.head?.map Prod.fst ∧
    ((get_overdue_schedules envDead 100 cfgTwo storeTwo).2 = [] →
      (cmd_check envDead 100 cfgTwo storeTwo).spawned = none) ∧
    mkRat 60 60 ≤ mkRat 90 60 :=
  ⟨(C10_check_spawns_head envDead 100 cfgTwo storeTwo).2.1,
   (C10_check_spawns_head envDead 100 cfgTwo storeTwo).2.2.1,
   (C10_check_spawns_head envDead 100 cfgTwo storeTwo).2.2.2
     ("a", mkRat 90 60) (by decide) ("b", mkRat 60 60) (by decide)⟩

/-- Scanning a schedule whose stored record is failed (already reconciled,
so not stale) with next_run = nr: before nr nothing happens and nothing is
emitted; at or after nr the record is flipped to pending and persisted, and
the schedule is emitted with its overdue minutes, in the same iteration. -/
theorem scanItem_failed_case (env : ProcEnv) (t timeout : Int) (st : Store)
    (name : String) (sched : Schedule) (f : NextFn) (r : RawRecord)
    (s : ScheduleState) (nr : Int)
    (hcron : sched.cron = some f)
    (hrec : st name = some (.record r))
    (hparse : parseRecord r = some s)
    (hfail : s.status = "failed")
    (hnr : s.next_run = some nr) :
    (¬ nr ≤ t → scanItem env t timeout st (name, sched) = (st, [])) ∧
    (nr ≤ t → scanItem env t timeout st (name, sched) =
      (save_state st { s with status := "pending" },
       [(name, mkRat (t - nr) 60)])) := by
  have hload : load_state st t name (some f) = ⟨s, st, false⟩ := by
    simp [load_state, hrec, hparse]
  have hstale : check_stale_job env t s timeout = false := by
    simp [check_stale_job, hfail]
  have hp1 : staleReconcile env t timeout (s, st) = (s, st) := by
    simp [staleReconcile, hstale]
  have hrun : ¬ (s.status = "running") := by rw [hfail]; simp
  constructor
  · intro ht
    have hflip : failedFlip t (s, st) = (s, st) := by
      simp [failedFlip, hnr, ht]
    have hemit : emitOverdue t name (s, st) = [] := by
      simp [emitOverdue, hnr, ht]
    simp [scanItem, hcron, hload, hp1, hrun, hflip, hemit]
  · intro ht
    have hflip : failedFlip t (s, st) =
        ({ s with status := "pending" },
         save_state st { s with status := "pending" }) := by
      simp [failedFlip, hnr, hfail, ht]
    have hemit : emitOverdue t name
        ({ s with status := "pending" },
         save_state st { s with status := "pending" }) =
        [(name, mkRat (t - nr) 60)] := by
      simp [emitOverdue, hnr, ht]
    simp [scanItem, hcron, hload, hp1, hrun, hflip, hemit]

/-- C4: while a schedule's stored record is failed with next_run = nr (the
state on_finish(success=false) leaves behind, next_run untouched), a scan at
any instant strictly before nr never selects the schedule; and a single scan
at any instant t at or after nr both persists the record flipped from
failed to pending and includes the schedule, with its overdue minutes, in
that same call's output. -/
theorem C4_failed_retry (env : ProcEnv) (config : Config) (store : Store)
    (name : String) (sched : Schedule) (f : NextFn) (r : RawRecord)
    (s : ScheduleState) (nr : Int)
    (hwk : WellKeyed store)
    (hnodup : (config.schedules.map Prod.fst).Nodup)
    (hmem : (name, sched) ∈ config.schedules)
    (hcron : sched.cron = some f)
    (hrec : store name = some (.record r))
    (hparse : parseRecord r = some s)
    (hfail : s.status = "failed")
    (hnr : s.next_run = some nr) :
    (∀ t : Int, t < nr →
      name ∉ (get_overdue_schedules env t config store).2.map Prod.fst) ∧
    (∀ t : Int, nr ≤ t →
      (name, mkRat (t - nr) 60) ∈ (get_overdue_schedules env t config store).2 ∧
      (get_overdue_schedules env t config store).1 name =
        some (.record (encodeRecord { s with status := "pending" }))) := by
  obtain ⟨pre, post, hsplit⟩ := List.append_of_mem hmem
  have hsch : s.schedule = name := hwk name r s hrec hparse
  have hnd := hnodup
  rw [hsplit, List.map_append, List.map_cons] at hnd
  rcases List.nodup_append.mp hnd with ⟨hnd1, hnd2, hdisj⟩
  have hpre : ∀ it ∈ pre, name ≠ it.1 := by
    intro it hit heq
    have h1 : it.1 ∈ pre.map Prod.fst := List.mem_map_of_mem Prod.fst hit
    rw [← heq] at h1
    exact hdisj h1 (List.mem_cons_self _ _)
  have hpost : ∀ it ∈ post, name ≠ it.1 := by
    intro it hit heq
    have h1 : it.1 ∈ post.map Prod.fst := List.mem_map_of_mem Prod.fst hit
    rw [← heq] at h1
    exact (List.nodup_cons.mp hnd2).1 h1
  have hmain : ∀ t : Int,
      get_overdue_schedules env t config store =
        ((scanList env t config.stale_job_timeout_hours store config.schedules).1,
         sortDesc (scanList env t config.stale_job_timeout_hours store
           config.schedules).2) := fun t => rfl
  constructor
  · intro t ht hcontra
    rcases List.mem_map.mp hcontra with ⟨p, hp, hpname⟩
    rw [hmain t] at hp
    have hp2 : p ∈ (scanList env t config.stale_job_timeout_hours store
        config.schedules).2 := (mem_sortDesc p _).mp hp
    rw [hsplit, scanList_append] at hp2
    have hpre_main := scanList_main env t config.stale_job_timeout_hours pre store hwk
    have hwk1 := hpre_main.1
    have hrec1 : (scanList env t config.stale_job_timeout_hours store pre).1 name =
        some (.record r) := by
      rw [hpre_main.2.1 name hpre]; exact hrec
    have hitem := scanItem_failed_case env t config.stale_job_timeout_hours
      (scanList env t config.stale_job_timeout_hours store pre).1
      name sched f r s nr hcron hrec1 hparse hfail hnr
    have hitem_eq := hitem.1 (not_le.mpr ht)
    rw [scanList_cons, hitem_eq] at hp2
    simp only [List.mem_append, List.not_mem_nil, List.nil_append, false_or] at hp2
    rcases hp2 with hp2 | hp2
    · obtain ⟨it, hit, hpe⟩ := hpre_main.2.2.1 p hp2
      exact hpre it hit (hpname ▸ hpe)
    · have hpost_main := scanList_main env t config.stale_job_timeout_hours post
        (scanList env t config.stale_job_timeout_hours store pre).1 hwk1
      obtain ⟨it, hit, hpe⟩ := hpost_main.2.2.1 p hp2
      exact hpost it hit (hpname ▸ hpe)
  · intro t ht
    have hpre_main := scanList_main env t config.stale_job_timeout_hours pre store hwk
    have hwk1 := hpre_main.1
    have hrec1 : (scanList env t config.stale_job_timeout_hours store pre).1 name =
        some (.record r) := by
      rw [hpre_main.2.1 name hpre]; exact hrec
    have hitem := scanItem_failed_case env t config.stale_job_timeout_hours
      (scanList env t config.stale_job_timeout_hours store pre).1
      name sched f r s nr hcron hrec1 hparse hfail hnr
    have hitem_eq := hitem.2 ht
    have hsch2 : ({ s with status := "pending" } : ScheduleState).schedule = name := hsch
    have hwk2 : WellKeyed (scanItem env t config.stale_job_timeout_hours
        (scanList env t config.stale_job_timeout_hours store pre).1 (name, sched)).1 := by
      rw [hitem_eq]
      exact wellKeyed_save _ _ hwk1
    have hpost_main := scanList_main env t config.stale_job_timeout_hours post
      (scanItem env t config.stale_job_timeout_hours
        (scanList env t config.stale_job_timeout_hours store pre).1 (name, sched)).1 hwk2
    constructor
    · rw [hmain t]
      apply (mem_sortDesc _ _).mpr
      rw [hsplit, scanList_append, scanList_cons]
      simp only [List.mem_append, hitem_eq]
      exact Or.inr (Or.inl (by simp))
    · rw [hmain t]
      have hfin : (scanList env t config.stale_job_timeout_hours store
          config.schedules).1 =
          (scanList env t config.stale_job_timeout_hours
            (scanItem env t config.stale_job_timeout_hours
              (scanList env t config.stale_job_timeout_hours store pre).1
              (name, sched)).1 post).1 := by
        rw [hsplit, scanList_append, scanList_cons]
      rw [hfin, hpost_main.2.1 name hpost, hitem_eq]
      simp [save_state, hsch]

/-- A failed record for the daily schedule with next_run = 100 (what
on_finish(success=false) leaves behind). -/
def failedDaily : ScheduleState :=
  { schedule := "daily", last_run := none, next_run := some 100,
    status := "failed", started_at := none, finished_at := some 50,
    pid := none }

/-- Witness for C4: with the daily schedule failed and next_run = 100, a
scan at instant 50 does not select it, while a single scan at instant 160
emits it overdue by one minute and persists the record flipped to
pending. -/
theorem C4_witness :
    ("daily" ∉ (get_overdue_schedules envDead 50 cfgDaily
        (save_state emptyStore failedDaily)).2.map Prod.fst) ∧
    ("daily", mkRat 60 60) ∈ (get_overdue_schedules envDead 160 cfgDaily
        (save_state emptyStore failedDaily)).2 ∧
    (get_overdue_schedules envDead 160 cfgDaily
        (save_state emptyStore failedDaily)).1 "daily" =
      some (.record (encodeRecord { failedDaily with status := "pending" })) :=
  ⟨(C4_failed_retry envDead cfgDaily (save_state emptyStore failedDaily)
      "daily" schedDaily fDaily (encodeRecord failedDaily) failedDaily 100
      (wellKeyed_save emptyStore failedDaily emptyStore_invariants.2)
      (by simp [cfgDaily]) (by simp [cfgDaily]) rfl rfl
      (parseRecord_encodeRecord failedDaily) rfl rfl).1 50 (by decide),
   (C4_failed_retry envDead cfgDaily (save_state emptyStore failedDaily)
      "daily" schedDaily fDaily (encodeRecord failedDaily) failedDaily 100
      (wellKeyed_save emptyStore failedDaily emptyStore_invariants.2)
      (by simp [cfgDaily]) (by simp [cfgDaily]) rfl rfl
      (parseRecord_encodeRecord failedDaily) rfl rfl).2 160 (by decide)⟩

/-- Broken-down local wall-clock instant at minute granularity (croniter
works on datetimes; seconds play no role in 5-field cron matching). -/
structure DateTime where
  year : Nat
  month : Nat
  day : Nat
  hour : Nat
  minute : Nat
deriving DecidableEq

/-- Chronological (lexicographic) strict order on broken-down instants. -/
def dtLt (a b : DateTime) : Prop :=
  a.year < b.year ∨ (a.year = b.year ∧ (a.month < b.month ∨ (a.month = b.month ∧
    (a.day < b.day ∨ (a.day = b.day ∧ (a.hour < b.hour ∨ (a.hour = b.hour ∧
      a.minute < b.minute)))))))

instance (a b : DateTime) : Decidable (dtLt a b) := by
  unfold dtLt
  exact inferInstance

/-- Gregorian leap-year rule. -/
def isLeapYear (y : Nat) : Bool :=
  y % 4 == 0 && (y % 100 != 0 || y % 400 == 0)

/-- Number of days in a month of the Gregorian calendar. -/
def daysInMonth (y m : Nat) : Nat :=
  if m = 2 then (if isLeapYear y then 29 else 28)
  else if m = 4 ∨ m = 6 ∨ m = 9 ∨ m = 11 then 30
  else 31

/-- Advance a broken-down instant by one minute, carrying through hour, day,
month and year. -/
def succMinute (d : DateTime) : DateTime :=
  if d.minute + 1 < 60 then { d with minute := d.minute + 1 }
  else if d.hour + 1 < 24 then { d with hour := d.hour + 1, minute := 0 }
  else if d.day + 1 ≤ daysInMonth d.year d.month then
    { d with day := d.day + 1, hour := 0, minute := 0 }
  else if d.month + 1 ≤ 12 then
    { d with month := d.month + 1, day := 1, hour := 0, minute := 0 }
  else { year := d.year + 1, month := 1, day := 1, hour := 0, minute := 0 }

/-- One atom of a cron field: wildcard, single value, inclusive range, or a
wildcard with a step value. -/
inductive CronAtom where
  | star : CronAtom
  | num (n : Nat) : CronAtom
  | range (a b : Nat) : CronAtom
  | step (k : Nat) : CronAtom
deriving DecidableEq

/-- Whether a field value matches one atom; `lo` is the field's minimum
(0 for minute/hour/day-of-week, 1 for day-of-month/month), the base of
step atoms. -/
def atomMatches (lo v : Nat) : CronAtom → Bool
  | .star => true
  | .num n => v == n
  | .range a b => decide (a ≤ v) && decide (v ≤ b)
  | .step k => k != 0 && (v - lo) % k == 0

/-- A cron field is a comma list of atoms; it matches when any atom does. -/
def fieldMatches (lo v : Nat) (atoms : List CronAtom) : Bool :=
  atoms.any (atomMatches lo v)

/-- Whether a field is unrestricted (contains a wildcard), which selects the
standard day-of-month/day-of-week combination rule. -/
def isStarField (atoms : List CronAtom) : Bool :=
  atoms.any fun a =>
    match a with
    | .star => true
    | _ => false

/-- A syntactically valid standard 5-field cron expression. -/
structure CronExpr where
  minute : List CronAtom
  hour : List CronAtom
  dom : List CronAtom
  month : List CronAtom
  dow : List CronAtom

/-- Day of week (0 = Sunday) by Sakamoto's method. -/
def dayOfWeek (y m d : Nat) : Nat :=
  let tbl := [0, 3, 2, 5, 0, 3, 5, 1, 4, 6, 2, 4]
  let y2 := if m < 3 then y - 1 else y
  (y2 + y2 / 4 - y2 / 100 + y2 / 400 + tbl.getD (m - 1) 0 + d) % 7

/-- Whether an instant matches a cron expression: minute, hour and month
must match; day-of-month and day-of-week follow the standard rule — both
must match when either field is unrestricted, else matching either
suffices. -/
def cronMatches (e : CronExpr) (d : DateTime) : Bool :=
  fieldMatches 0 d.minute e.minute &&
  fieldMatches 0 d.hour e.hour &&
  fieldMatches 1 d.month e.month &&
  (let domOk := fieldMatches 1 d.day e.dom
   let dowOk := fieldMatches 0 (dayOfWeek d.year d.month d.day) e.dow
   if isStarField e.dom || isStarField e.dow then domOk && dowOk
   else domOk || dowOk)

/-- Modelled from the spec: the Recurrence Calculator's cron engine
(croniter's `get_next`, an external library whose code is not part of this
repository).  Per the spec contract (§4.2) it returns the next trigger
instant strictly after the given instant, for standard 5-field syntax with
wildcards, steps and lists, on local wall-clock time.  Operationally: walk
forward one minute at a time from the instant and return the first matching
one; `fuel` bounds the search. -/
def cronNextAux (e : CronExpr) : DateTime → Nat → Option DateTime
  | _, 0 => none
  | d, fuel + 1 =>
    let d2 := succMinute d
    if cronMatches e d2 then some d2 else cronNextAux e d2 fuel

/-- Modelled from the spec: `next_after(expression, from_instant)` of the
Recurrence Calculator, searching far enough (ten years of minutes) to cover
every satisfiable standard expression, including leap-day ones. -/
def cron_get_next (e : CronExpr) (from_time : DateTime) : Option DateTime :=
  cronNextAux e from_time 5300000

/-- Adding one minute strictly advances the chronological order. -/
theorem dtLt_succMinute (d : DateTime) : dtLt d (succMinute d) := by
  unfold succMinute
  split_ifs <;> simp [dtLt]

/-- Chronological order is transitive. -/
theorem dtLt_trans (a b c : DateTime) (h1 : dtLt a b) (h2 : dtLt b c) :
    dtLt a c := by
  unfold dtLt at *
  omega

/-- Strictness of the bounded search, for every fuel. -/
theorem cronNextAux_gt (e : CronExpr) :
    ∀ (fuel : Nat) (t r : DateTime), cronNextAux e t fuel = some r → dtLt t r := by
  intro fuel
  induction fuel with
  | zero => intro t r h; simp [cronNextAux] at h
  | succ n ih =>
    intro t r h
    simp only [cronNextAux] at h
    by_cases hm : cronMatches e (succMinute t) = true
    · rw [if_pos hm] at h
      injection h with h
      exact h ▸ dtLt_succMinute t
    · rw [if_neg hm] at h
      exact dtLt_trans _ _ _ (dtLt_succMinute t) (ih (succMinute t) r h)

/-- C8: whenever the Recurrence Calculator produces a next trigger for a
cron expression from an instant — with any search bound, in particular the
one `next_after` uses — that trigger is strictly later than the instant. -/
theorem C8_next_after_gt (e : CronExpr) (t r : DateTime) :
    (∀ fuel : Nat, cronNextAux e t fuel = some r → dtLt t r) ∧
    (cron_get_next e t = some r → dtLt t r) :=
  ⟨fun fuel h => cronNextAux_gt e fuel t r h,
   fun h => cronNextAux_gt e 5300000 t r h⟩

/-- The daily-at-3am cron expression `0 3 * * *`. -/
def cronDaily3am : CronExpr :=
  ⟨[.num 0], [.num 3], [.star], [.star], [.star]⟩

/-- Witness for C8: from 2026-01-19 02:58 the expression `0 3 * * *` next
fires at 2026-01-19 03:00, strictly later. -/
theorem C8_witness :
    dtLt ⟨2026, 1, 19, 2, 58⟩ ⟨2026, 1, 19, 3, 0⟩ :=
  (C8_next_after_gt cronDaily3am ⟨2026, 1, 19, 2, 58⟩ ⟨2026, 1, 19, 3, 0⟩).1
    5 (by decide)

/-- C1 (evaluating the code at the failing scenario): cmd_check consults no
lock of any kind — its model has no lock parameter because cli.py acquires
none — so an invocation arriving while another check runs proceeds
regardless: here, with the daily schedule's record failed and overdue, it
mutates the persisted record (flipping it to pending) and spawns the job.
Under the claimed concurrency gate a second concurrent invocation would
have performed zero state mutations and spawned nothing. -/
theorem C1_no_lock_spawn :
    (cmd_check envDead 160 cfgDaily (save_state emptyStore failedDaily)).spawned =
      some "daily" ∧
    (cmd_check envDead 160 cfgDaily (save_state emptyStore failedDaily)).store
        "daily" ≠
      save_state emptyStore failedDaily "daily" :=
  ⟨by decide, by decide⟩
